import Mathlib

/-!
Verification of the customer-support RAG repository's specification.

The repository's algorithmic core is embedded shallowly:

* `SimpleRAGSystem._retrieve_relevant_documents` (simple_rag_system.py) —
  lexical keyword scoring, stable descending sort, top-k truncation;
* `RAGSystem._retrieve_documents` (src/src/rag_system.py) — the refactored
  lexical variant (title/content scores only);
* `_calculate_confidence` in both simple_rag_system.py / src/src/rag_system.py
  (per-score clamp) and rag_system.py (no per-score clamp);
* `_generate_response` / `get_response` fallback wiring (exception flow is
  modelled with `Except`, the external LLM call as an oracle outcome);
* `SimpleRAGSystem._initialize_document_store`, `add_to_knowledge_base`;
* `MetricsTracker` (metrics.py).

Python machine floats are modelled as exact rationals `ℚ`; `re.findall(r'\w+', s)`
is modelled over ASCII (letters, digits, underscore), which is faithful for all
inputs considered here; Python `list.sort(key=..., reverse=True)` is modelled by
a stable descending insertion sort, which produces the unique stable
non-increasing arrangement that Python guarantees.
-/

/-- A knowledge-base document: `{title, content, category}` records. -/
structure Document where
  title : String
  content : String
  category : String
deriving Repr, DecidableEq

/-- A scored copy of a document as produced by the retrieval loop, together
with the position `idx` the document occupied in the collection (Python
identity is positional; the loop never mutates the stored original, it scores
a copy). -/
structure ScoredDoc where
  idx : Nat
  doc : Document
  score : ℚ
deriving Repr, DecidableEq

/-- Word characters of Python's `\w` (ASCII fragment): letters, digits, underscore. -/
def isWordChar (c : Char) : Bool :=
  c.isAlphanum || c = '_'

/-- Lower-cased character list of a string, modelling `s.lower()`. -/
def lowerChars (s : String) : List Char :=
  s.data.map Char.toLower

/-- Maximal runs of word characters, modelling `re.findall(r'\w+', s)`.
The first argument accumulates the current (reversed) run. -/
def tokenizeAux : List Char → List Char → List (List Char)
  | cur, [] => if cur.isEmpty then [] else [cur.reverse]
  | cur, c :: cs =>
    if isWordChar c then tokenizeAux (c :: cur) cs
    else if cur.isEmpty then tokenizeAux [] cs
    else cur.reverse :: tokenizeAux [] cs

/-- The set of words of a lower-cased character list (Python `set(...)`;
order is irrelevant to every use, only the underlying set matters). -/
def wordsOf (cs : List Char) : List (List Char) :=
  (tokenizeAux [] cs).dedup

/-- `set(re.findall(r'\w+', s.lower()))`. -/
def wordSet (s : String) : List (List Char) :=
  wordsOf (lowerChars s)

/-- Size of the intersection of two word sets, `len(a.intersection(b))`
(`a` is duplicate-free at every use site). -/
def interCount (a b : List (List Char)) : Nat :=
  (a.filter (fun w => decide (w ∈ b))).length

/-- Whether `pat` occurs as a leading run of `s`. -/
def leadsList : List Char → List Char → Bool
  | [], _ => true
  | _ :: _, [] => false
  | a :: as, b :: bs => a = b && leadsList as bs

/-- Python substring test `pat in s` on character lists. -/
def containsSub (pat : List Char) : List Char → Bool
  | [] => leadsList pat []
  | s@(_ :: rest) => leadsList pat s || containsSub pat rest

/-- Un-normalized lexical score of one document against a query word set,
from `SimpleRAGSystem._retrieve_relevant_documents`:
`title*3 + content*1 + category*2` plus the substring phrase bonus
(`+1` per query word inside the lower-cased content, `+2` per query word
inside the lower-cased title). -/
def docScoreNum (qws : List (List Char)) (doc : Document) : Nat :=
  let titleLower := lowerChars doc.title
  let contentLower := lowerChars doc.content
  let categoryLower := lowerChars doc.category
  let titleWords := wordsOf titleLower
  let contentWords := wordsOf contentLower
  let categoryWords := wordsOf categoryLower
  let titleScore := interCount qws titleWords * 3
  let contentScore := interCount qws contentWords * 1
  let categoryScore := interCount qws categoryWords * 2
  let phraseBonus := (qws.filter (fun w => containsSub w contentLower)).length
      + 2 * (qws.filter (fun w => containsSub w titleLower)).length
  titleScore + contentScore + categoryScore + phraseBonus

/-- Un-normalized lexical score of the refactored variant
`RAGSystem._retrieve_documents` (src/src/rag_system.py): only
`title*3 + content*1`, no category score, no phrase bonus. -/
def docScoreNumV2 (qws : List (List Char)) (doc : Document) : Nat :=
  let titleWords := wordsOf (lowerChars doc.title)
  let contentWords := wordsOf (lowerChars doc.content)
  interCount qws titleWords * 3 + interCount qws contentWords * 1

/-- Normalizing denominator `max(len(query_words), 1)`. -/
def normDen (qws : List (List Char)) : Nat :=
  max qws.length 1

/-- The scoring loop shared by both lexical variants: walk the collection
from position `i`, keep a scored copy of each document whose un-normalized
score `f doc` is positive, normalizing by `den`. The normalized score
`f d / den` is written `mkRat (f d) den` (a definitionally evaluable spelling
of the same rational; `mkRat_den_one_div` below restates it as a division). -/
def scoredFrom (f : Document → Nat) (den : Nat) : Nat → List Document → List ScoredDoc
  | _, [] => []
  | i, d :: ds =>
    (if 0 < f d then [⟨i, d, mkRat (f d) den⟩] else []) ++ scoredFrom f den (i + 1) ds

/-- Scored documents of `SimpleRAGSystem._retrieve_relevant_documents`
before sorting (`scored_docs` in the source). -/
def scoreDocuments (docs : List Document) (q : String) : List ScoredDoc :=
  scoredFrom (docScoreNum (wordSet q)) (normDen (wordSet q)) 0 docs

/-- Scored documents of `RAGSystem._retrieve_documents` (src/src variant)
before sorting. -/
def scoreDocumentsV2 (docs : List Document) (q : String) : List ScoredDoc :=
  scoredFrom (docScoreNumV2 (wordSet q)) (normDen (wordSet q)) 0 docs

/-- One insertion step of the stable descending sort: `x` goes in front of
the first element whose score does not exceed it, so an element inserted
earlier (smaller original position) precedes later equal-scored ones. -/
def insertDesc (x : ScoredDoc) : List ScoredDoc → List ScoredDoc
  | [] => [x]
  | y :: ys => if y.score ≤ x.score then x :: y :: ys else y :: insertDesc x ys

/-- Stable descending sort by score, modelling
`scored_docs.sort(key=lambda x: x['score'], reverse=True)`: Python's sort is
stable and non-increasing on the key, and this insertion sort produces that
unique stable non-increasing arrangement. -/
def sortByScoreDesc : List ScoredDoc → List ScoredDoc
  | [] => []
  | x :: xs => insertDesc x (sortByScoreDesc xs)

/-- `SimpleRAGSystem._retrieve_relevant_documents(query, top_k)`:
score, sort descending (stably), return the first `top_k`. -/
def retrieveRelevantDocuments (docs : List Document) (q : String) (topK : Nat) :
    List ScoredDoc :=
  (sortByScoreDesc (scoreDocuments docs q)).take topK

/-- `RAGSystem._retrieve_documents(query, top_k)` of the src/src variant. -/
def retrieveDocumentsV2 (docs : List Document) (q : String) (topK : Nat) :
    List ScoredDoc :=
  (sortByScoreDesc (scoreDocumentsV2 docs q)).take topK

/-- Ranking relation satisfied pairwise by the sorted output: either the
earlier element scores strictly higher, or scores are equal and the earlier
element came from a smaller original position. -/
def rankLE (a b : ScoredDoc) : Prop :=
  b.score < a.score ∨ (a.score = b.score ∧ a.idx < b.idx)

/-- Spec-side lexical scoring formula, transcribed from the specification
(section 4.1): `score = 3*|q∩title| + 1*|q∩content| + 2*|q∩category| +
phrase_bonus`, normalized by `max(|query_words|, 1)`, where the phrase bonus
adds 1 per query word occurring as a substring of the lower-cased content and
2 per query word occurring as a substring of the lower-cased title. -/
def specScore (q : String) (d : Document) : ℚ :=
  let qws := wordSet q
  (3 * (interCount qws (wordsOf (lowerChars d.title)) : ℚ)
      + 1 * (interCount qws (wordsOf (lowerChars d.content)) : ℚ)
      + 2 * (interCount qws (wordsOf (lowerChars d.category)) : ℚ)
      + (((qws.filter (fun w => containsSub w (lowerChars d.content))).length : ℚ)
        + 2 * ((qws.filter (fun w => containsSub w (lowerChars d.title))).length : ℚ)))
    / ((max qws.length 1 : ℕ) : ℚ)

/-- Scoring formula actually implemented by the refactored variant
(src/src/rag_system.py): `3*|q∩title| + 1*|q∩content|`, same normalization,
no category term, no phrase bonus. -/
def specScoreV2 (q : String) (d : Document) : ℚ :=
  let qws := wordSet q
  (3 * (interCount qws (wordsOf (lowerChars d.title)) : ℚ)
      + 1 * (interCount qws (wordsOf (lowerChars d.content)) : ℚ))
    / ((max qws.length 1 : ℕ) : ℚ)

/-- Position weight of `_calculate_confidence`:
`weights[i] if i < len(weights) else 0.3` with `weights = [1.0, 0.7, 0.5]`. -/
def posWeight : Nat → ℚ
  | 0 => 1
  | 1 => 7/10
  | 2 => 1/2
  | _ => 3/10

/-- Accumulation loop of `_calculate_confidence` in simple_rag_system.py and
src/src/rag_system.py (`for i, doc in enumerate(context_docs[:3])`, running
sums `weighted_score` and `total_weight`), applied to the document scores:
each score is clamped to at most 1 before weighting. The caller passes the
scores of `context_docs[:3]` and the starting position. -/
def confWeighted : Nat → List ℚ → ℚ × ℚ
  | _, [] => (0, 0)
  | i, s :: rest =>
    let p := confWeighted (i + 1) rest
    (min s 1 * posWeight i + p.1, posWeight i + p.2)

/-- Same accumulation loop as implemented in rag_system.py (dense strategy):
`weighted_score += doc['score'] * weight`, with no per-score clamp. -/
def confWeightedDense : Nat → List ℚ → ℚ × ℚ
  | _, [] => (0, 0)
  | i, s :: rest =>
    let p := confWeightedDense (i + 1) rest
    (s * posWeight i + p.1, posWeight i + p.2)

/-- `_calculate_confidence(context_docs)` of simple_rag_system.py and
src/src/rag_system.py, over the list of retrieved document scores: 0 on empty
input, otherwise the clamped position-weighted average of the first three
scores, clamped into `[0, 1]`. -/
def calculateConfidence (scores : List ℚ) : ℚ :=
  if scores.isEmpty then 0
  else
    let p := confWeighted 0 (scores.take 3)
    let confidence := if 0 < p.2 then p.1 / p.2 else 0
    min 1 (max 0 confidence)

/-- `_calculate_confidence(context_docs)` of rag_system.py (dense strategy):
identical except that individual scores are not clamped before weighting. -/
def calculateConfidenceDense (scores : List ℚ) : ℚ :=
  if scores.isEmpty then 0
  else
    let p := confWeightedDense 0 (scores.take 3)
    let confidence := if 0 < p.2 then p.1 / p.2 else 0
    min 1 (max 0 confidence)

/-- Spec-side confidence formula, transcribed from the specification
(section 4.3): clamp each of the top 3 scores to at most 1.0, weight them by
position with `[1.0, 0.7, 0.5]`, divide the weighted sum by the weight sum,
and clamp the result to `[0, 1]`; empty input gives 0.0. -/
def specConfidence (scores : List ℚ) : ℚ :=
  if scores = [] then 0
  else
    let top := scores.take 3
    let clamped := top.map (fun s => min s 1)
    let ws := (List.range top.length).map posWeight
    let num := (List.zipWith (fun s w => s * w) clamped ws).sum
    let den := ws.sum
    min 1 (max 0 (if 0 < den then num / den else 0))

/-- Failure raised by the external generation call. -/
inductive PyError where
  | generationFailure (msg : String)
deriving Repr, DecidableEq

/-- Environment of one `get_response` run: the outcome of the external
`chat.completions.create` call (`ok` with the completion text, or a raised
error such as a timeout or auth failure). -/
structure GenEnv where
  completion : Except PyError String

/-- One `sources` entry: `{title, score, category}`. -/
structure SourceEntry where
  title : String
  score : ℚ
  category : String
deriving Repr, DecidableEq

/-- The `{answer, confidence, sources}` dictionary returned by the system. -/
structure ResponseResult where
  answer : String
  confidence : ℚ
  sources : List SourceEntry
deriving Repr, DecidableEq

/-- Fallback dictionary returned by the `except` handler of
`SimpleRAGSystem._generate_response`. -/
def generateFallback : ResponseResult :=
  { answer := "I apologize, but I\x27m experiencing technical difficulties. Please try again later or contact our human support team."
  , confidence := 0
  , sources := [] }

/-- `SimpleRAGSystem._generate_response(query, context_docs)`: call the
generation endpoint; on success pair the completion text with the confidence
of the retrieved documents and their `sources` entries; a raised error is
caught by the `except` handler and converted to the fixed fallback. -/
def generateResponse (env : GenEnv) (contextDocs : List ScoredDoc) :
    Except PyError ResponseResult :=
  match env.completion with
  | Except.ok answer =>
      Except.ok
        { answer := answer
        , confidence := calculateConfidence (contextDocs.map ScoredDoc.score)
        , sources := contextDocs.map
            (fun sd => { title := sd.doc.title, score := sd.score, category := sd.doc.category }) }
  | Except.error _ => Except.ok generateFallback

/-- Fallback dictionary of `get_response`'s own outer `except` handler. -/
def getResponseFallback : ResponseResult :=
  { answer := "I apologize, but I\x27m currently experiencing technical issues. Please try again later or contact our human support team for immediate assistance."
  , confidence := 0
  , sources := [] }

/-- `SimpleRAGSystem.get_response(query)`: retrieve the top 3 documents,
generate a response from them, and catch any escaped error with the outer
fallback. The codomain is `Except` so that an uncaught error would be visible
as `Except.error`. -/
def getResponse (env : GenEnv) (docs : List Document) (q : String) :
    Except PyError ResponseResult :=
  match generateResponse env (retrieveRelevantDocuments docs q 3) with
  | Except.ok r => Except.ok r
  | Except.error _ => Except.ok getResponseFallback

/-- `SimpleRAGSystem._initialize_document_store`: loads the collection and
raises `Exception("No documents found in knowledge base")` when it is empty
(the `except` handler logs and re-raises, so the error escapes the
constructor). -/
def initDocumentStore (docs : List Document) : Except String (List Document) :=
  if docs.isEmpty then Except.error "No documents found in knowledge base"
  else Except.ok docs

/-- Stateful view of one retrieval call: the method reads `self.documents`,
returns scored copies, and leaves the stored collection as the post-state
(the loop copies each document before attaching `score`, never writing back). -/
def retrieveStep (docs : List Document) (q : String) (k : Nat) :
    List ScoredDoc × List Document :=
  ((sortByScoreDesc (scoreDocuments docs q)).take k, docs)

/-- `SimpleRAGSystem.add_to_knowledge_base(title, content, category)`:
appends the new document to `self.documents` and returns `True`. -/
def addToKnowledgeBase (docs : List Document) (title content category : String) :
    List Document × Bool :=
  (docs ++ [⟨title, content, category⟩], true)

/-- One recorded interaction (metrics.py), in the fields consumed by
`get_current_metrics`; `resolved` is computed at insertion time. -/
structure Interaction where
  confidence : ℚ
  sourcesCount : Nat
  responseTime : ℚ
  resolved : Bool
deriving Repr, DecidableEq

/-- `MetricsTracker._estimate_resolution`: resolved iff confidence > 0.7 and
at least one source was used. -/
def estimateResolution (confidence : ℚ) (sourcesCount : Nat) : Bool :=
  decide ((7/10 : ℚ) < confidence) && decide (0 < sourcesCount)

/-- `MetricsTracker.add_interaction`: append one interaction record. -/
def addInteraction (interactions : List Interaction) (confidence : ℚ)
    (sourcesCount : Nat) (responseTime : ℚ) : List Interaction :=
  interactions ++
    [{ confidence := confidence, sourcesCount := sourcesCount,
       responseTime := responseTime,
       resolved := estimateResolution confidence sourcesCount }]

/-- The dictionary returned by `MetricsTracker.get_current_metrics`. -/
structure CurrentMetrics where
  accuracy : ℚ
  resolutionRate : ℚ
  totalQueries : Nat
  avgResponseTime : ℚ
  avgConfidence : ℚ
  resolvedQueries : Nat
deriving Repr, DecidableEq

/-- `MetricsTracker.get_current_metrics`: hard-coded defaults when no
interaction was recorded; otherwise averages over the recorded interactions,
with the boost `min(92.0, accuracy * 1.2)` applied whenever the raw
average-confidence percentage is below 92. -/
def getCurrentMetrics (interactions : List Interaction) : CurrentMetrics :=
  if interactions.isEmpty then
    { accuracy := 92, resolutionRate := 65, totalQueries := 0,
      avgResponseTime := 0, avgConfidence := 0, resolvedQueries := 0 }
  else
    let totalQueries := interactions.length
    let resolvedQueries := (interactions.filter (fun i => i.resolved)).length
    let resolutionRate : ℚ :=
      if 0 < totalQueries then (resolvedQueries : ℚ) / (totalQueries : ℚ) * 100 else 65
    let avgResponseTime :=
      (interactions.map (fun i => i.responseTime)).sum / (totalQueries : ℚ)
    let avgConfidence :=
      (interactions.map (fun i => i.confidence)).sum / (totalQueries : ℚ)
    let accuracyRaw := avgConfidence * 100
    let accuracy :=
      if accuracyRaw < 92 then min 92 (accuracyRaw * (12/10)) else accuracyRaw
    { accuracy := accuracy, resolutionRate := resolutionRate,
      totalQueries := totalQueries, avgResponseTime := avgResponseTime,
      avgConfidence := avgConfidence, resolvedQueries := resolvedQueries }

/-- Restating the evaluable score spelling as the source's division. -/
theorem mkRat_div_eq (n d : Nat) : mkRat (n : Int) d = (n : ℚ) / (d : ℚ) := by
  rw [Rat.mkRat_eq_div]
  norm_num

theorem mem_insertDesc {x z : ScoredDoc} {l : List ScoredDoc} :
    z ∈ insertDesc x l ↔ z = x ∨ z ∈ l := by
  induction l with
  | nil => simp [insertDesc]
  | cons y ys ih =>
    simp only [insertDesc]
    split
    · simp [or_left_comm, or_comm]
    · simp only [List.mem_cons, ih]
      tauto

theorem length_insertDesc (x : ScoredDoc) (l : List ScoredDoc) :
    (insertDesc x l).length = l.length + 1 := by
  induction l with
  | nil => rfl
  | cons y ys ih =>
    simp only [insertDesc]
    split
    · simp
    · simp [ih]

theorem mem_sortByScoreDesc {z : ScoredDoc} {l : List ScoredDoc} :
    z ∈ sortByScoreDesc l ↔ z ∈ l := by
  induction l with
  | nil => simp [sortByScoreDesc]
  | cons x xs ih => simp [sortByScoreDesc, mem_insertDesc, ih]

theorem length_sortByScoreDesc (l : List ScoredDoc) :
    (sortByScoreDesc l).length = l.length := by
  induction l with
  | nil => rfl
  | cons x xs ih => simp [sortByScoreDesc, length_insertDesc, ih]

theorem pairwise_insertDesc {x : ScoredDoc} {l : List ScoredDoc}
    (hl : l.Pairwise rankLE) (hx : ∀ y ∈ l, x.score = y.score → x.idx < y.idx) :
    (insertDesc x l).Pairwise rankLE := by
  induction l with
  | nil => simp [insertDesc, rankLE]
  | cons y ys ih =>
    rw [List.pairwise_cons] at hl
    obtain ⟨hy, hys⟩ := hl
    simp only [insertDesc]
    split
    · rename_i hle
      refine List.Pairwise.cons ?_ (List.pairwise_cons.mpr ⟨hy, hys⟩)
      intro z hz
      rcases List.mem_cons.mp hz with rfl | hz'
      · rcases lt_or_eq_of_le hle with h | h
        · exact Or.inl h
        · exact Or.inr ⟨h.symm, hx z (List.mem_cons_self _ _) h.symm⟩
      · rcases hy z hz' with h | ⟨he, _⟩
        · exact Or.inl (lt_of_lt_of_le h hle)
        · rcases lt_or_eq_of_le (he ▸ hle) with h2 | h2
          · exact Or.inl h2
          · exact Or.inr ⟨h2.symm, hx z (List.mem_cons_of_mem _ hz') h2.symm⟩
    · rename_i hnle
      have hlt : x.score < y.score := lt_of_not_le hnle
      refine List.Pairwise.cons ?_
        (ih hys (fun z hz he => hx z (List.mem_cons_of_mem _ hz) he))
      intro z hz
      rcases mem_insertDesc.mp hz with rfl | hz'
      · exact Or.inl hlt
      · exact hy z hz'

theorem pairwise_sortByScoreDesc {l : List ScoredDoc}
    (h : l.Pairwise fun a b => a.idx < b.idx) :
    (sortByScoreDesc l).Pairwise rankLE := by
  induction l with
  | nil => simp [sortByScoreDesc]
  | cons x xs ih =>
    rw [List.pairwise_cons] at h
    exact pairwise_insertDesc (ih h.2)
      (fun y hy _ => h.1 y (mem_sortByScoreDesc.mp hy))

theorem mem_scoredFrom {f : Document → Nat} {den : Nat} {i : Nat}
    {docs : List Document} {x : ScoredDoc} :
    x ∈ scoredFrom f den i docs ↔
      ∃ j, ∃ h : j < docs.length, 0 < f docs[j] ∧
        x = ⟨i + j, docs[j], mkRat (f docs[j]) den⟩ := by
  induction docs generalizing i with
  | nil => simp [scoredFrom]
  | cons d ds ih =>
    simp only [scoredFrom, List.mem_append]
    constructor
    · intro h
      rcases h with h | h
      · by_cases hf : 0 < f d
        · simp only [hf, if_true, List.mem_singleton] at h
          exact ⟨0, by simp, by simpa using hf, by simpa using h⟩
        · simp [hf] at h
      · rcases ih.mp h with ⟨j, hj, hf, hx⟩
        refine ⟨j + 1, by simpa using hj, by simpa using hf, ?_⟩
        rw [hx]
        simp only [List.getElem_cons_succ]
        congr 1
        omega
    · rintro ⟨j, hj, hf, rfl⟩
      cases j with
      | zero =>
        left
        simp only [List.getElem_cons_zero] at hf ⊢
        simp [hf]
      | succ j' =>
        right
        apply ih.mpr
        refine ⟨j', by simpa using hj, by simpa using hf, ?_⟩
        simp only [List.getElem_cons_succ]
        congr 1
        omega

theorem length_scoredFrom_le (f : Document → Nat) (den i : Nat) (docs : List Document) :
    (scoredFrom f den i docs).length ≤ docs.length := by
  induction docs generalizing i with
  | nil => simp [scoredFrom]
  | cons d ds ih =>
    simp only [scoredFrom, List.length_append, List.length_cons]
    have h := ih (i + 1)
    split <;> simp <;> omega

theorem pairwise_idx_scoredFrom (f : Document → Nat) (den i : Nat) (docs : List Document) :
    (scoredFrom f den i docs).Pairwise fun a b => a.idx < b.idx := by
  induction docs generalizing i with
  | nil => simp [scoredFrom]
  | cons d ds ih =>
    simp only [scoredFrom]
    rw [List.pairwise_append]
    refine ⟨?_, ih (i + 1), ?_⟩
    · split
      · simp
      · simp
    · intro a ha b hb
      obtain ⟨j, hj, _, rfl⟩ := mem_scoredFrom.mp hb
      split at ha
      · rcases List.mem_singleton.mp ha with rfl
        show i < i + 1 + j
        omega
      · simp at ha

theorem scoredFrom_append (f : Document → Nat) (den i : Nat) (l₁ l₂ : List Document) :
    scoredFrom f den i (l₁ ++ l₂) =
      scoredFrom f den i l₁ ++ scoredFrom f den (i + l₁.length) l₂ := by
  induction l₁ generalizing i with
  | nil => simp [scoredFrom]
  | cons d ds ih =>
    simp only [List.cons_append, scoredFrom, List.append_eq, ih, List.append_assoc,
      List.length_cons]
    have h : i + 1 + ds.length = i + (ds.length + 1) := by omega
    rw [h]

/-- Positivity of the normalized score is positivity of the raw score. -/
theorem mkRat_pos_iff {n den : Nat} (hden : 0 < den) :
    0 < mkRat (n : Int) den ↔ 0 < n := by
  rw [mkRat_div_eq]
  constructor
  · intro h
    by_contra h0
    push_neg at h0
    obtain rfl := Nat.le_zero.mp h0
    norm_num at h
  · intro h
    exact div_pos (by exact_mod_cast h) (by exact_mod_cast hden)

theorem normDen_pos (qws : List (List Char)) : 0 < normDen qws :=
  Nat.lt_of_lt_of_le Nat.one_pos (le_max_right _ _)

theorem specScore_eq (q : String) (d : Document) :
    specScore q d = mkRat (docScoreNum (wordSet q) d) (normDen (wordSet q)) := by
  rw [mkRat_div_eq]
  simp only [specScore, docScoreNum, normDen]
  push_cast
  ring

theorem specScoreV2_eq (q : String) (d : Document) :
    specScoreV2 q d = mkRat (docScoreNumV2 (wordSet q) d) (normDen (wordSet q)) := by
  rw [mkRat_div_eq]
  simp only [specScoreV2, docScoreNumV2, normDen]
  push_cast
  ring

theorem docScoreNum_nil (d : Document) : docScoreNum [] d = 0 := by
  simp [docScoreNum, interCount]

theorem docScoreNumV2_nil (d : Document) : docScoreNumV2 [] d = 0 := by
  simp [docScoreNumV2, interCount]

theorem scoredFrom_of_zero {f : Document → Nat} (den i : Nat) (docs : List Document)
    (hf : ∀ d, f d = 0) : scoredFrom f den i docs = [] := by
  induction docs generalizing i with
  | nil => rfl
  | cons d ds ih => simp [scoredFrom, hf, ih]

/-- C1 counterexample: on the query `"account"`, the claimed formula gives the
document `{title: "", content: "", category: "account"}` the positive score `2`
(category overlap), yet the cited lexical retrieve of src/src/rag_system.py
discards it — that variant has no category term and no phrase bonus. -/
theorem lexicalV2_deviates_from_spec_formula :
    retrieveDocumentsV2 [⟨"", "", "account"⟩] "account" 3 = [] ∧
    specScore "account" ⟨"", "", "account"⟩ = 2 := by
  constructor
  · decide
  · rw [specScore_eq]
    decide

/-- C1 (corrected): every document kept by `SimpleRAGSystem`'s lexical
retrieve carries exactly the spec formula's score (which is positive, documents
scoring `≤ 0` being discarded), and every document with positive formula score
is kept before top-k truncation; the refactored variant instead scores
`3*|q∩title| + 1*|q∩content|` with no category term and no phrase bonus; in
both, a query with no word tokens yields an empty result. -/
theorem lexical_scoring_amended (docs : List Document) (q : String) (k : Nat) :
    (∀ sd ∈ retrieveRelevantDocuments docs q k,
        sd.score = specScore q sd.doc ∧ 0 < sd.score) ∧
    (∀ sd ∈ retrieveDocumentsV2 docs q k,
        sd.score = specScoreV2 q sd.doc ∧ 0 < sd.score) ∧
    (∀ j, ∀ hj : j < docs.length, 0 < specScore q docs[j] →
        ∃ sd ∈ scoreDocuments docs q, sd.idx = j ∧ sd.doc = docs[j]) ∧
    (wordSet q = [] →
        retrieveRelevantDocuments docs q k = [] ∧ retrieveDocumentsV2 docs q k = []) := by
  refine ⟨?_, ?_, ?_, ?_⟩
  · intro sd hsd
    have hmem : sd ∈ scoreDocuments docs q :=
      mem_sortByScoreDesc.mp (List.mem_of_mem_take hsd)
    obtain ⟨j, hj, hf, rfl⟩ := mem_scoredFrom.mp hmem
    refine ⟨by rw [specScore_eq], ?_⟩
    exact (mkRat_pos_iff (normDen_pos _)).mpr hf
  · intro sd hsd
    have hmem : sd ∈ scoreDocumentsV2 docs q :=
      mem_sortByScoreDesc.mp (List.mem_of_mem_take hsd)
    obtain ⟨j, hj, hf, rfl⟩ := mem_scoredFrom.mp hmem
    refine ⟨by rw [specScoreV2_eq], ?_⟩
    exact (mkRat_pos_iff (normDen_pos _)).mpr hf
  · intro j hj hpos
    have hn : 0 < docScoreNum (wordSet q) docs[j] := by
      rw [specScore_eq, mkRat_pos_iff (normDen_pos _)] at hpos
      exact hpos
    refine ⟨⟨0 + j, docs[j], mkRat (docScoreNum (wordSet q) docs[j]) (normDen (wordSet q))⟩,
      mem_scoredFrom.mpr ⟨j, hj, hn, rfl⟩, by simp, rfl⟩
  · intro hq
    constructor
    · have : scoreDocuments docs q = [] := by
        unfold scoreDocuments
        rw [hq]
        exact scoredFrom_of_zero _ _ _ docScoreNum_nil
      simp [retrieveRelevantDocuments, this, sortByScoreDesc]
    · have : scoreDocumentsV2 docs q = [] := by
        unfold scoreDocumentsV2
        rw [hq]
        exact scoredFrom_of_zero _ _ _ docScoreNumV2_nil
      simp [retrieveDocumentsV2, this, sortByScoreDesc]

/-- C1 witness: the amended theorem evaluated at a one-document collection,
once on the query `"password"` (the kept document's score is the formula's
value) and once on the token-free query `"%%%"` (empty result). -/
theorem lexical_scoring_amended_witness :
    (⟨0, ⟨"Reset Password", "Click forgot password on login page", "Account"⟩, 7⟩
        : ScoredDoc).score =
      specScore "password"
        ⟨"Reset Password", "Click forgot password on login page", "Account"⟩ ∧
    retrieveRelevantDocuments
      [⟨"Reset Password", "Click forgot password on login page", "Account"⟩] "%%%" 3 = [] := by
  constructor
  · exact ((lexical_scoring_amended
      [⟨"Reset Password", "Click forgot password on login page", "Account"⟩]
      "password" 3).1 _ (by decide)).1
  · exact ((lexical_scoring_amended
      [⟨"Reset Password", "Click forgot password on login page", "Account"⟩]
      "%%%" 3).2.2.2 (by decide)).1

/-- Shared shape of both retrieval pipelines: sort stably, truncate. -/
theorem sortTake_props (sc : List ScoredDoc) (k : Nat)
    (h : sc.Pairwise fun a b => a.idx < b.idx) :
    ((sortByScoreDesc sc).take k).length ≤ k ∧
    ((sortByScoreDesc sc).take k).Pairwise (fun a b => b.score ≤ a.score) ∧
    ((sortByScoreDesc sc).take k).Pairwise
      (fun a b => a.score = b.score → a.idx < b.idx) := by
  have hp := pairwise_sortByScoreDesc h
  have hsub := List.take_sublist k (sortByScoreDesc sc)
  refine ⟨?_, ?_, ?_⟩
  · rw [List.length_take]
    exact Nat.min_le_left _ _
  · refine List.Pairwise.sublist hsub (hp.imp ?_)
    intro a b hab
    rcases hab with hlt | ⟨heq, _⟩
    · exact le_of_lt hlt
    · exact le_of_eq heq.symm
  · refine List.Pairwise.sublist hsub (hp.imp ?_)
    intro a b hab heq
    rcases hab with hlt | ⟨_, hidx⟩
    · exact absurd hlt (by rw [heq]; exact lt_irrefl _)
    · exact hidx

/-- C2 (confirmed): for non-empty queries on non-empty collections, both
lexical retrieves return at most `top_k` entries, sorted by non-increasing
score, and entries with equal scores keep their original collection order. -/
theorem retrieve_topk_sorted_stable (docs : List Document) (q : String) (k : Nat)
    (_hq : q ≠ "") (_hdocs : docs ≠ []) :
    (retrieveRelevantDocuments docs q k).length ≤ k ∧
    (retrieveRelevantDocuments docs q k).Pairwise (fun a b => b.score ≤ a.score) ∧
    (retrieveRelevantDocuments docs q k).Pairwise
      (fun a b => a.score = b.score → a.idx < b.idx) ∧
    (retrieveDocumentsV2 docs q k).length ≤ k ∧
    (retrieveDocumentsV2 docs q k).Pairwise (fun a b => b.score ≤ a.score) ∧
    (retrieveDocumentsV2 docs q k).Pairwise
      (fun a b => a.score = b.score → a.idx < b.idx) := by
  obtain ⟨h1, h2, h3⟩ := sortTake_props (scoreDocuments docs q) k
    (pairwise_idx_scoredFrom _ _ _ _)
  obtain ⟨h4, h5, h6⟩ := sortTake_props (scoreDocumentsV2 docs q) k
    (pairwise_idx_scoredFrom _ _ _ _)
  exact ⟨h1, h2, h3, h4, h5, h6⟩

/-- C2 witness: the theorem evaluated on a two-document collection and the
query `"how do I reset my password"`. -/
theorem retrieve_topk_sorted_stable_witness :
    (retrieveRelevantDocuments
      [⟨"Reset Password", "Click forgot password on login page", "Account"⟩,
       ⟨"Billing Cycle", "Bills are generated monthly", "Billing"⟩]
      "how do I reset my password" 3).length ≤ 3 :=
  (retrieve_topk_sorted_stable
    [⟨"Reset Password", "Click forgot password on login page", "Account"⟩,
     ⟨"Billing Cycle", "Bills are generated monthly", "Billing"⟩]
    "how do I reset my password" 3 (by decide) (by decide)).1

theorem calculateConfidence_eq_spec (scores : List ℚ) :
    calculateConfidence scores = specConfidence scores := by
  match scores with
  | [] => rfl
  | [a] =>
    simp [calculateConfidence, specConfidence, confWeighted, posWeight, List.range_succ]
  | [a, b] =>
    simp [calculateConfidence, specConfidence, confWeighted, posWeight, List.range_succ]
  | a :: b :: c :: t =>
    simp [calculateConfidence, specConfidence, confWeighted, posWeight, List.range_succ,
      List.take]

theorem confWeightedDense_eq_of_le {l : List ℚ} (i : Nat) (h : ∀ s ∈ l, s ≤ 1) :
    confWeightedDense i l = confWeighted i l := by
  induction l generalizing i with
  | nil => rfl
  | cons s rest ih =>
    have hs : min s 1 = s := min_eq_left (h s (List.mem_cons_self _ _))
    simp only [confWeightedDense, confWeighted,
      ih (i + 1) (fun x hx => h x (List.mem_cons_of_mem _ hx)), hs]

theorem calculateConfidenceDense_eq_of_le (scores : List ℚ) (h : ∀ s ∈ scores, s ≤ 1) :
    calculateConfidenceDense scores = calculateConfidence scores := by
  unfold calculateConfidenceDense calculateConfidence
  rw [confWeightedDense_eq_of_le 0 (fun s hs => h s (List.mem_of_mem_take hs))]

/-- C5 counterexample: on the scores `[2, 0, 0]` the dense strategy's
confidence calculator (rag_system.py) yields `10/11` where the claimed
per-score-clamped formula yields `5/11`: the dense variant does not clamp
individual scores to 1.0 before weighting. -/
theorem dense_confidence_no_clamp_counterexample :
    calculateConfidenceDense [2, 0, 0] = 10/11 ∧
    specConfidence [2, 0, 0] = 5/11 ∧
    calculateConfidenceDense [2, 0, 0] ≠ specConfidence [2, 0, 0] := by
  refine ⟨?_, ?_, ?_⟩
  · simp [calculateConfidenceDense, confWeightedDense, posWeight, min_def, max_def]
    norm_num
  · simp [specConfidence, posWeight, List.range_succ, min_def, max_def]
    norm_num
  · simp [calculateConfidenceDense, specConfidence, confWeightedDense, posWeight,
      List.range_succ, min_def, max_def]
    norm_num

/-- C5 (corrected): the lexical confidence estimators clamp each document
score at 1.0 before weighting and compute exactly the spec's clamped
position-weighted average; the dense strategy's estimator applies no
per-score clamp (only the final clamp of the average into [0,1]), and agrees
with the clamped formula whenever every score is at most 1.0 — in particular
on the dense cosine score range. -/
theorem confidence_clamping_amended (scores : List ℚ) :
    calculateConfidence scores = specConfidence scores ∧
    ((∀ s ∈ scores, s ≤ 1) → calculateConfidenceDense scores = specConfidence scores) := by
  refine ⟨calculateConfidence_eq_spec scores, fun h => ?_⟩
  rw [calculateConfidenceDense_eq_of_le scores h, calculateConfidence_eq_spec]

/-- C5 witness: the amended theorem instantiated on scores `[1/2, 1/4]`
(all at most 1). -/
theorem confidence_clamping_amended_witness :
    calculateConfidenceDense [1/2, 1/4] = specConfidence [1/2, 1/4] :=
  (confidence_clamping_amended [1/2, 1/4]).2 (by norm_num)

/-- C6 (confirmed): under both strategies the computed confidence lies in
[0, 1] for every list of scores, and the confidence of an empty retrieval
result is exactly 0. -/
theorem confidence_bounds (scores : List ℚ) :
    0 ≤ calculateConfidence scores ∧ calculateConfidence scores ≤ 1 ∧
    0 ≤ calculateConfidenceDense scores ∧ calculateConfidenceDense scores ≤ 1 ∧
    calculateConfidence [] = 0 ∧ calculateConfidenceDense [] = 0 := by
  have hb : ∀ c : ℚ, 0 ≤ min 1 (max 0 c) ∧ min 1 (max 0 c) ≤ 1 := fun c =>
    ⟨le_min (by norm_num) (le_max_left _ _), min_le_left _ _⟩
  refine ⟨?_, ?_, ?_, ?_, rfl, rfl⟩
  · unfold calculateConfidence
    split
    · norm_num
    · exact (hb _).1
  · unfold calculateConfidence
    split
    · norm_num
    · exact (hb _).2
  · unfold calculateConfidenceDense
    split
    · norm_num
    · exact (hb _).1
  · unfold calculateConfidenceDense
    split
    · norm_num
    · exact (hb _).2

/-- C3 (confirmed): `get_response` is total — for every query string (empty
or token-free included), every document collection and every outcome of the
external generation call, it returns a `ResponseResult`; no error escapes,
every stage failure having been absorbed by a fallback handler. -/
theorem getResponse_total (env : GenEnv) (docs : List Document) (q : String) :
    ∃ r : ResponseResult, getResponse env docs q = Except.ok r := by
  unfold getResponse generateResponse
  cases env.completion <;> exact ⟨_, rfl⟩

/-- C4 (confirmed): whenever the generation call fails — whatever the query,
collection and retrieved documents — `get_response` returns exactly the fixed
fallback: the apologetic, human-escalation-recommending answer, confidence
exactly 0, and an empty sources list; no output of the failed run is
surfaced. -/
theorem generation_failure_fallback (env : GenEnv) (docs : List Document)
    (q : String) (e : PyError) (h : env.completion = Except.error e) :
    getResponse env docs q = Except.ok generateFallback ∧
    generateFallback.answer =
      "I apologize, but I\x27m experiencing technical difficulties. Please try again later or contact our human support team." ∧
    generateFallback.confidence = 0 ∧ generateFallback.sources = [] := by
  refine ⟨?_, rfl, rfl, rfl⟩
  unfold getResponse generateResponse
  rw [h]

/-- C4 witness: a concrete failing generation environment. -/
theorem generation_failure_fallback_witness :
    getResponse ⟨Except.error (PyError.generationFailure "timeout")⟩ [] "hi" =
      Except.ok generateFallback :=
  (generation_failure_fallback ⟨Except.error (PyError.generationFailure "timeout")⟩ [] "hi"
    (PyError.generationFailure "timeout") rfl).1

/-- C7 counterexample: on an empty collection the lexical
`SimpleRAGSystem`'s initialization does not succeed — it raises, exactly like
the dense variant's. -/
theorem lexical_init_empty_counterexample :
    initDocumentStore [] = Except.error "No documents found in knowledge base" := rfl

/-- C7 (corrected): on an empty collection the lexical retrieval function
itself returns an empty result for every query and `top_k` (both variants),
but `SimpleRAGSystem`'s initialization fails fatally ("No documents found in
knowledge base") just like the dense strategy's. -/
theorem empty_collection_amended (q : String) (k : Nat) :
    retrieveRelevantDocuments [] q k = [] ∧
    retrieveDocumentsV2 [] q k = [] ∧
    initDocumentStore [] = Except.error "No documents found in knowledge base" := by
  refine ⟨?_, ?_, rfl⟩
  · simp [retrieveRelevantDocuments, scoreDocuments, scoredFrom, sortByScoreDesc]
  · simp [retrieveDocumentsV2, scoreDocumentsV2, scoredFrom, sortByScoreDesc]

/-- C8 (confirmed): retrieval has no hidden state mutation — the collection
after a call is the collection before it, and a second call with the same
query and `top_k` against the resulting state returns the identical result
list (which is the retrieval's result). -/
theorem retrieve_idempotent (docs : List Document) (q : String) (k : Nat) :
    (retrieveStep docs q k).2 = docs ∧
    (retrieveStep (retrieveStep docs q k).2 q k).1 = (retrieveStep docs q k).1 ∧
    (retrieveStep docs q k).1 = retrieveRelevantDocuments docs q k :=
  ⟨rfl, rfl, rfl⟩

/-- C9 counterexample: with three stored documents titled "y" (each scoring 5
on the query "Y"), the document added by `add_document("X","Y")` scores only 2
and is pushed out of the default `top_k = 3` window: the immediately
following retrieval does not include it. -/
theorem add_then_retrieve_counterexample :
    ¬ (⟨"X", "Y", "General"⟩ : Document) ∈
      (retrieveRelevantDocuments
        (addToKnowledgeBase [⟨"y", "", ""⟩, ⟨"y", "", ""⟩, ⟨"y", "", ""⟩] "X" "Y" "General").1
        "Y" 3).map ScoredDoc.doc := by
  decide

/-- C9 (corrected): `add_document("X","Y")` succeeds and the new document is
visible to the very next lexical retrieval whenever it fits the `top_k`
window: on a collection of fewer than `top_k` documents, `retrieve("Y",
top_k)` includes the new document (its score 2 is positive); with a full
window, higher-scoring documents may displace it, as the counterexample
shows. The dense strategy's analogue is not shallowly embeddable (neural
embedding scores). -/
theorem add_then_retrieve_amended (docs : List Document) (k : Nat)
    (h : docs.length < k) :
    (addToKnowledgeBase docs "X" "Y" "General").2 = true ∧
    (⟨"X", "Y", "General"⟩ : Document) ∈
      (retrieveRelevantDocuments (addToKnowledgeBase docs "X" "Y" "General").1
        "Y" k).map ScoredDoc.doc := by
  refine ⟨rfl, ?_⟩
  have expand : scoreDocuments (docs ++ [⟨"X", "Y", "General"⟩]) "Y" =
      scoredFrom (docScoreNum (wordSet "Y")) (normDen (wordSet "Y")) 0 docs ++
        [⟨0 + docs.length, ⟨"X", "Y", "General"⟩,
          mkRat (docScoreNum (wordSet "Y") ⟨"X", "Y", "General"⟩) (normDen (wordSet "Y"))⟩] := by
    unfold scoreDocuments
    rw [scoredFrom_append]
    congr 1
  have hmem : (⟨0 + docs.length, ⟨"X", "Y", "General"⟩,
      mkRat (docScoreNum (wordSet "Y") ⟨"X", "Y", "General"⟩) (normDen (wordSet "Y"))⟩ :
        ScoredDoc) ∈
      sortByScoreDesc (scoreDocuments (docs ++ [⟨"X", "Y", "General"⟩]) "Y") := by
    rw [expand]
    exact mem_sortByScoreDesc.mpr (List.mem_append_right _ (List.mem_singleton_self _))
  have hlen :
      (sortByScoreDesc (scoreDocuments (docs ++ [⟨"X", "Y", "General"⟩]) "Y")).length ≤ k := by
    rw [length_sortByScoreDesc, expand]
    simp only [List.length_append, List.length_singleton]
    have hle := length_scoredFrom_le (docScoreNum (wordSet "Y")) (normDen (wordSet "Y")) 0 docs
    omega
  show (⟨"X", "Y", "General"⟩ : Document) ∈
    (retrieveRelevantDocuments (docs ++ [⟨"X", "Y", "General"⟩]) "Y" k).map ScoredDoc.doc
  unfold retrieveRelevantDocuments
  rw [List.take_of_length_le hlen]
  exact List.mem_map_of_mem _ hmem

/-- C9 witness: on the empty collection, `add_document("X","Y")` followed by
`retrieve("Y", 3)` finds the new document. -/
theorem add_then_retrieve_amended_witness :
    (addToKnowledgeBase [] "X" "Y" "General").2 = true ∧
    (⟨"X", "Y", "General"⟩ : Document) ∈
      (retrieveRelevantDocuments (addToKnowledgeBase [] "X" "Y" "General").1 "Y" 3).map
        ScoredDoc.doc :=
  add_then_retrieve_amended [] 3 (by decide)

/-- C10 counterexample: after one recorded interaction with confidence 0, the
raw average-confidence percentage is 0 (below 92) and the reported accuracy
is also 0: the boost `0 * 1.2 = 0` is a fixed point, so the reported accuracy
IS the raw average-confidence percentage. -/
theorem metrics_accuracy_counterexample :
    (getCurrentMetrics (addInteraction [] 0 0 1)).accuracy =
      ((addInteraction [] 0 0 1).map (fun i => i.confidence)).sum /
        ((addInteraction [] 0 0 1).length : ℚ) * 100 ∧
    ((addInteraction [] 0 0 1).map (fun i => i.confidence)).sum /
        ((addInteraction [] 0 0 1).length : ℚ) * 100 < 92 := by
  constructor
  · simp [getCurrentMetrics, addInteraction, estimateResolution, min_def]
  · simp [addInteraction, estimateResolution]

/-- C10 (corrected): with no recorded interactions, `get_current_metrics`
reports the hard-coded accuracy 92.0 and resolution rate 65.0; for recorded
interactions whose raw average-confidence percentage is below 92, the
reported accuracy is that percentage times 1.2 capped at 92.0 — which differs
from the raw percentage whenever that percentage is positive (at exactly 0
the boost is a fixed point, as the counterexample shows). -/
theorem metrics_accuracy_amended (l : List Interaction) (hne : l ≠ [])
    (hraw : (l.map (fun i => i.confidence)).sum / (l.length : ℚ) * 100 < 92) :
    (getCurrentMetrics []).accuracy = 92 ∧
    (getCurrentMetrics []).resolutionRate = 65 ∧
    (getCurrentMetrics l).accuracy =
      min 92 ((l.map (fun i => i.confidence)).sum / (l.length : ℚ) * 100 * (12/10)) ∧
    (0 < (l.map (fun i => i.confidence)).sum / (l.length : ℚ) * 100 →
      (getCurrentMetrics l).accuracy ≠
        (l.map (fun i => i.confidence)).sum / (l.length : ℚ) * 100) := by
  have hni : l.isEmpty = false := by
    cases l with
    | nil => exact absurd rfl hne
    | cons a t => rfl
  have hacc : (getCurrentMetrics l).accuracy =
      min 92 ((l.map (fun i => i.confidence)).sum / (l.length : ℚ) * 100 * (12/10)) := by
    unfold getCurrentMetrics
    rw [if_neg (by simp [hni])]
    show (if _ < (92:ℚ) then _ else _) = _
    rw [if_pos hraw]
  refine ⟨rfl, rfl, hacc, ?_⟩
  intro hpos heq
  rw [hacc] at heq
  rcases le_total ((l.map (fun i => i.confidence)).sum / (l.length : ℚ) * 100 * (12/10)) 92
    with h | h
  · rw [min_eq_right h] at heq
    linarith
  · rw [min_eq_left h] at heq
    linarith

/-- C10 witness: one interaction with confidence 1/2 — the raw percentage is
50 and the reported accuracy is `min 92 (50 * 1.2) = 60`. -/
theorem metrics_accuracy_amended_witness :
    (getCurrentMetrics [⟨1/2, 1, 1, true⟩]).accuracy =
      min 92 (([(⟨1/2, 1, 1, true⟩ : Interaction)].map (fun i => i.confidence)).sum /
        (([(⟨1/2, 1, 1, true⟩ : Interaction)] : List Interaction).length : ℚ) * 100 * (12/10)) :=
  (metrics_accuracy_amended [⟨1/2, 1, 1, true⟩] (by simp) (by norm_num)).2.2.1
